import Mathlib

set_option maxHeartbeats 1000000

/- Shallow embedding of cram.py, a functional testing framework for command
line applications.  Python strings are modelled as Lean `String`s; the
fragments of the Python standard library that the program relies on
(`str` methods, `re.match` on the syntactic subset the program emits,
`os.path` helpers, the shape of `os.walk` output) are given executable
Lean counterparts next to the program's own functions. -/

/-- Python `s.endswith(suf)`. -/
def pyEndsWith (s suf : String) : Bool := suf.data.isSuffixOf s.data

/-- Python `s.startswith(pre)`. -/
def pyStartsWith (s pre : String) : Bool := pre.data.isPrefixOf s.data

/-- Python `s[:-n]` (drop the last `n` characters; empty when `n ≥ len(s)`). -/
def pyDropRight (s : String) (n : Nat) : String :=
  String.mk (s.data.take (s.data.length - n))

/-- Python whitespace test used by `str.split()`. -/
def isPySpace (c : Char) : Bool :=
  c = ' ' || c = '\t' || c = '\n' || c = '\r' || c = '\x0b' || c = '\x0c'

/-- Helper for `pySplitWS`: accumulates the current word (reversed). -/
def splitWSAux : List Char → List Char → List (List Char)
  | acc, [] => if acc.isEmpty then [] else [acc.reverse]
  | acc, c :: rest =>
      if isPySpace c then
        (if acc.isEmpty then [] else [acc.reverse]) ++ splitWSAux [] rest
      else splitWSAux (c :: acc) rest

/-- Python `s.split()` with no argument: split on runs of whitespace,
dropping leading and trailing whitespace. -/
def pySplitWS (s : String) : List String :=
  (splitWSAux [] s.data).map String.mk

/-- Digit accumulation for `pyInt`. -/
def digitsToNat : Nat → List Char → Option Nat
  | acc, [] => some acc
  | acc, c :: rest =>
      if c.isDigit then digitsToNat (acc * 10 + (c.toNat - '0'.toNat)) rest
      else none

/-- Python `int(s)` for the strings this program feeds it: optional
whitespace, an optional sign, then decimal digits.  `none` models the
`ValueError` raised on anything else. -/
def pyInt (s : String) : Option Int :=
  let t := ((s.data.dropWhile isPySpace).reverse.dropWhile isPySpace).reverse
  match t with
  | '-' :: ds => if ds.isEmpty then none else (digitsToNat 0 ds).map (fun n => -(n : Int))
  | '+' :: ds => if ds.isEmpty then none else (digitsToNat 0 ds).map (fun n => (n : Int))
  | ds => if ds.isEmpty then none else (digitsToNat 0 ds).map (fun n => (n : Int))

/- ------------------------------------------------------------------
Regular expressions.  cram's `_match` calls `re.match(pattern, s)`,
which anchors the pattern at the start of `s` only.  We model the regex
syntax the program emits and its docstrings exercise: literal
characters, `\c` escapes of non-alphanumeric characters, `.`, and the
postfix operators `*`, `+`, `?`.  Metacharacters outside this subset
(groups, classes, alternation, anchors, `\` followed by a letter) are
treated as unparseable, as are the genuinely ill-formed patterns
(`"***"`, a trailing backslash) that Python rejects with `re.error`.
Matching is defined by Brzozowski derivatives.
------------------------------------------------------------------ -/

inductive Rgx where
  | fail
  | eps
  | chr (c : Char)
  | dot
  | alt (r1 r2 : Rgx)
  | cat (r1 r2 : Rgx)
  | star (r : Rgx)
deriving DecidableEq

/-- Does the regex accept the empty string? -/
def nullable : Rgx → Bool
  | .fail => false
  | .eps => true
  | .chr _ => false
  | .dot => false
  | .alt r1 r2 => nullable r1 || nullable r2
  | .cat r1 r2 => nullable r1 && nullable r2
  | .star _ => true

/-- Brzozowski derivative with respect to one character.  `.` matches any
character except a newline, as in Python without `re.DOTALL`. -/
def rderiv (c : Char) : Rgx → Rgx
  | .fail => .fail
  | .eps => .fail
  | .chr d => if c = d then .eps else .fail
  | .dot => if c = '\n' then .fail else .eps
  | .alt r1 r2 => .alt (rderiv c r1) (rderiv c r2)
  | .cat r1 r2 =>
      if nullable r1 then .alt (.cat (rderiv c r1) r2) (rderiv c r2)
      else .cat (rderiv c r1) r2
  | .star r => .cat (rderiv c r) (.star r)

/-- Does `r` match some prefix of `s` (the semantics of `re.match`)? -/
def matchHere (r : Rgx) : List Char → Bool
  | [] => nullable r
  | c :: s => nullable r || matchHere (rderiv c r) s

/-- Python `re` metacharacters that start no atom in our subset (either
ill-formed there, like a leading `*`, or outside the modelled subset). -/
def reMetas : List Char :=
  ['*', '+', '?', '(', ')', '[', ']', '\x7b', '\x7d', '|', '^', '$']

/-- One regex atom: a literal, an escape (of a non-alphanumeric
character), or `.`; `none` models `re.error` (or a construct outside
the modelled subset, such as a class or group). -/
def parseAtom (c : Char) (rest : List Char) : Option (Rgx × List Char) :=
  if c = '.' then some (Rgx.dot, rest)
  else if c = '\\' then
    match rest with
    | [] => none
    | d :: r2 => if d.isAlphanum then none else some (Rgx.chr d, r2)
  else if c ∈ reMetas then none
  else some (Rgx.chr c, rest)

/-- Fuelled regex parser: a sequence of atoms, each optionally followed by
`*`, `+` or `?`.  `none` models `re.error` (or an unsupported construct).
Fuel `len + 1` always suffices since every step consumes a character. -/
def parseSeqF : Nat → List Char → Option Rgx
  | 0, _ => none
  | _ + 1, [] => some Rgx.eps
  | f + 1, c :: rest =>
      match parseAtom c rest with
      | none => none
      | some (a, r2) =>
          if r2.head? = some '*' then
            (parseSeqF f r2.tail).map (Rgx.cat (Rgx.star a))
          else if r2.head? = some '+' then
            (parseSeqF f r2.tail).map (Rgx.cat (Rgx.cat a (Rgx.star a)))
          else if r2.head? = some '?' then
            (parseSeqF f r2.tail).map (Rgx.cat (Rgx.alt a Rgx.eps))
          else (parseSeqF f r2).map (Rgx.cat a)

/-- Parse a regex pattern (modelling `re.compile`; `none` = `re.error`). -/
def parseRgx (pat : List Char) : Option Rgx := parseSeqF (pat.length + 1) pat

/-- cram's `_match(pattern, s)` on character lists: "Match pattern or
return False if invalid."  A pattern that fails to compile is caught
(`except re.error`) and reported as no-match. -/
def pyMatchL (pat s : List Char) : Bool :=
  match parseRgx pat with
  | none => false
  | some r => matchHere r s

/-- cram's `_match` on strings. -/
def pyMatch (pat s : String) : Bool := pyMatchL pat.data s.data

/-- Python `re.escape` restricted to a single character: alphanumeric
characters stand for themselves, everything else is backslash-escaped. -/
def reEscape (c : Char) : List Char := if c.isAlphanum then [c] else ['\\', c]

/-- The regex denoting a literal character sequence. -/
def litRgx : List Char → Rgx
  | [] => Rgx.eps
  | c :: cs => Rgx.cat (Rgx.chr c) (litRgx cs)

/-- Character-wise `re.escape` of a whole string. -/
def escChars : List Char → List Char
  | [] => []
  | c :: cs => reEscape c ++ escChars cs

/-- The translation loop of cram's `_glob`: `*` → `.*`, `?` → `.`,
`\*` `\?` `\\` kept as literal escapes, everything else `re.escape`d.
`none` models the `IndexError` raised when the pattern ends in a lone
backslash (the loop reads `el[i]` past the end of the string). -/
def globTranslate : List Char → Option (List Char)
  | [] => some []
  | ['\\'] => none
  | '\\' :: d :: r2 =>
      if d = '*' || d = '?' || d = '\\' then
        (globTranslate r2).map (fun t => '\\' :: d :: t)
      else
        (globTranslate (d :: r2)).map (fun t => reEscape '\\' ++ t)
  | c :: rest =>
      if c = '*' then (globTranslate rest).map (fun t => '.' :: '*' :: t)
      else if c = '?' then (globTranslate rest).map (fun t => '.' :: t)
      else (globTranslate rest).map (fun t => reEscape c ++ t)

/-- cram's `_glob(el, l)`: translate the glob into a regex string and run
`_match` on it.  `none` models the uncaught `IndexError` on a pattern
ending in a lone backslash. -/
def pyGlobE (el l : String) : Option Bool :=
  (globTranslate el.data).map (fun t => pyMatchL t l.data)

/-- The pattern test of `SequenceMatcher.find_longest_match` (cram.py
lines 81-82), exceptions included:
`el.endswith(" (re)\n") and _match(el[:-6] + '\n', line) or
 el.endswith(" (glob)\n") and _glob(el[:-8] + '\n', line)`.
`none` models an exception escaping from `_glob`. -/
def lineMatchesE (el line : String) : Option Bool :=
  if pyEndsWith el " (re)\n" && pyMatch (pyDropRight el 6 ++ "\n") line then
    some true
  else if pyEndsWith el " (glob)\n" then
    pyGlobE (pyDropRight el 8 ++ "\n") line
  else
    some false

/-- The pattern test as a Bool: true exactly when the Python expression is
truthy (we prove separately that the exception case never occurs here,
because the glob pattern always ends in the appended newline). -/
def lineMatches (el line : String) : Bool := lineMatchesE el line == some true

/- ------------------------------------------------------------------
SequenceMatcher.find_longest_match (cram.py lines 74-94).  The method
scans the zipped windows `a[alo:ahi]`/`b[blo:bhi]`, substitutes the
actual line for every matching pattern line, delegates to the
superclass (difflib, external to this repository — modelled as an
arbitrary pure function of the substituted sequences), then restores
the recorded original lines.
------------------------------------------------------------------ -/

/-- Python `xs[lo:hi]` for `0 ≤ lo ≤ hi`. -/
def pySlice (xs : List String) (lo hi : Nat) : List String :=
  (xs.drop lo).take (hi - lo)

/-- The scan `for n, (el, line) in enumerate(zip(a[alo:ahi], b[blo:bhi]))`
recording `(n, el, line)` for every pair where the pattern test fires.
`el` is read from the slice snapshot, so mutation during the Python loop
never affects it. -/
def flmScan : Nat → List (String × String) → List (Nat × String × String)
  | _, [] => []
  | k, (el, line) :: rest =>
      (if lineMatches el line then [(k, el, line)] else []) ++ flmScan (k + 1) rest

/-- The matches recorded by `find_longest_match` before delegating. -/
def flmMatches (a b : List String) (alo ahi blo bhi : Nat) :
    List (Nat × String × String) :=
  flmScan 0 ((pySlice a alo ahi).zip (pySlice b blo bhi))

/-- cram's `SequenceMatcher.find_longest_match`, with the superclass
method abstracted as `superFLM` (it reads the substituted `a` and `b`
and returns a match triple; difflib never mutates `self.a`).  Returns
the final state of `self.a` together with the delegated result. -/
def find_longest_match (superFLM : List String → List String → Nat × Nat × Nat)
    (a b : List String) (alo ahi blo bhi : Nat) :
    List String × (Nat × Nat × Nat) :=
  let ms := flmMatches a b alo ahi blo bhi
  let a1 := ms.foldl (fun acc m => acc.set (alo + m.1) m.2.2) a
  let ret := superFLM a1 b
  let a2 := ms.foldl (fun acc m => acc.set (alo + m.1) m.2.1) a1
  (a2, ret)

/- ------------------------------------------------------------------
unified_diff (cram.py lines 96-123).  The grouped opcodes come from
difflib's `get_grouped_opcodes` (external library); the generator is
modelled as a function of that group list.  Headers are emitted lazily,
on the first group only.
------------------------------------------------------------------ -/

/-- One difflib opcode `(tag, i1, i2, j1, j2)`. -/
structure Opc where
  tag : String
  i1 : Nat
  i2 : Nat
  j1 : Nat
  j2 : Nat
deriving DecidableEq

/-- Lines yielded for one opcode of a hunk. -/
def opLines (a b : List String) (op : Opc) : List String :=
  if op.tag = "equal" then (pySlice a op.i1 op.i2).map (fun l => " " ++ l)
  else
    (if op.tag = "replace" || op.tag = "delete" then
      (pySlice a op.i1 op.i2).map (fun l => "-" ++ l)
    else []) ++
    (if op.tag = "replace" || op.tag = "insert" then
      (pySlice b op.j1 op.j2).map (fun l => "+" ++ l)
    else [])

/-- Lines yielded for one group: the `@@` header then the opcode lines.
difflib never produces an empty group; such a group contributes nothing. -/
def hunkLines (a b : List String) (lineterm : String) (group : List Opc) :
    List String :=
  match group.head?, group.getLast? with
  | some g0, some gl =>
      ("@@ -" ++ toString (g0.i1 + 1) ++ "," ++ toString (gl.i2 - g0.i1) ++
        " +" ++ toString (g0.j1 + 1) ++ "," ++ toString (gl.j2 - g0.j1) ++
        " @@" ++ lineterm) :: group.flatMap (opLines a b)
  | _, _ => []

/-- cram's `unified_diff`, as a function of the grouped opcodes.  The
`--- `/`+++ ` header lines are produced inside the loop, on the first
group only, so an empty group list yields nothing at all. -/
def unified_diff (a b : List String)
    (fromfile tofile fromfiledate tofiledate lineterm : String)
    (groups : List (List Opc)) : List String :=
  match groups with
  | [] => []
  | _ =>
      ("--- " ++ fromfile ++ "\t" ++ fromfiledate ++ lineterm) ::
      ("+++ " ++ tofile ++ "\t" ++ tofiledate ++ lineterm) ::
      groups.flatMap (hunkLines a b lineterm)

/- ------------------------------------------------------------------
test() (cram.py lines 125-182).  Two phases are modelled: the parse of
the test file (building `refout` and the `after` dictionary, lines
147-160) and the reconstruction of the actual transcript from the raw
shell output (lines 163-177).  The shell subprocess itself is external:
the raw output stream is an input of the reconstruction.
------------------------------------------------------------------ -/

/-- `after.setdefault(k, []).append(v)` on an association list. -/
def addAfter : List (Int × List String) → Int → String → List (Int × List String)
  | [], k, v => [(k, [v])]
  | (k', vs) :: rest, k, v =>
      if k' = k then (k', vs ++ [v]) :: rest else (k', vs) :: addAfter rest k v

/-- `after.pop(k, [])`: the stored list (or `[]`) and the map without `k`. -/
def popAfter : List (Int × List String) → Int → List String × List (Int × List String)
  | [], _ => ([], [])
  | (k', vs) :: rest, k =>
      if k' = k then (vs, rest)
      else
        let r := popAfter rest k
        (r.1, (k', vs) :: r.2)

/-- State of the file-parsing loop of `test()`. -/
structure ParseSt where
  after : List (Int × List String)
  refout : List String
  pos : Int
  prepos : Int
deriving DecidableEq

/-- One iteration of `for i, line in enumerate(f)` (cram.py lines 148-160).
Writes to the subprocess stdin are external effects and not part of the
transcript state. -/
def parseStep (st : ParseSt) (iline : Int × String) : ParseSt :=
  let i := iline.1
  let line := iline.2
  let st := { st with refout := st.refout ++ [line] }
  if pyStartsWith line "  $ " then
    { st with after := addAfter st.after st.pos line, prepos := st.pos, pos := i }
  else if pyStartsWith line "  > " then
    { st with after := addAfter st.after st.prepos line }
  else if !pyStartsWith line "  " then
    { st with after := addAfter st.after st.pos line }
  else st

/-- Parse a whole test file (initial state `i = pos = prepos = -1`). -/
def parseFile (lines : List String) : ParseSt :=
  (lines.enum.map (fun p => ((p.1 : Int), p.2))).foldl parseStep
    ⟨[], [], -1, -1⟩

/-- State of the reconstruction loop of `test()`. -/
structure ReconSt where
  after : List (Int × List String)
  postout : List String
  pos : Int
  ret : Int
deriving DecidableEq

/-- One iteration of the reconstruction loop (cram.py lines 165-176).
`none` models an uncaught exception (`postout.pop()` on an empty list,
or a sentinel line whose fields do not parse). -/
def reconStep (salt : String) (st : ReconSt) (line : String) : Option ReconSt :=
  if pyStartsWith line salt then
    match st.postout.getLast? with
    | none => none
    | some presalt =>
        let rest := st.postout.dropLast
        let postout :=
          if presalt = "  \n" then rest
          else rest ++ [pyDropRight presalt 1 ++ "%\n"]
        match (pySplitWS line)[2]? with
        | none => none
        | some tok2 =>
            match pyInt tok2 with
            | none => none
            | some ret =>
                let postout :=
                  if ret ≠ 0 then postout ++ ["  [" ++ toString ret ++ "]\n"]
                  else postout
                let pa := popAfter st.after st.pos
                let postout := postout ++ pa.1
                match (pySplitWS line)[1]? with
                | none => none
                | some tok1 =>
                    match pyInt tok1 with
                    | none => none
                    | some pos => some ⟨pa.2, postout, pos, ret⟩
  else
    some { st with postout := st.postout ++ ["  " ++ line] }

/-- The full reconstruction (cram.py lines 163-177): fold the loop over
the raw output lines, then flush `after.pop(pos, [])` for the final
group.  Returns the reconstructed `postout`. -/
def reconstruct (salt : String) (after : List (Int × List String))
    (stream : List String) : Option (List String) :=
  match stream.foldlM (reconStep salt) (⟨after, [], -1, 0⟩ : ReconSt) with
  | none => none
  | some st => some (st.postout ++ (popAfter st.after st.pos).1)

/-- Follows the spec's words for the sentinel step (section 4.3,
reconstruction rule (1)): "if the previously buffered output for the
current group is non-empty and its last collected line is a bare blank
marker-line, replace that line's trailing newline with a literal `%`
marker"; other lines are left unchanged. -/
def claimedSentinelBlankFix (postout : List String) : List String :=
  match postout.getLast? with
  | none => postout
  | some last =>
      if last = "  \n" then postout.dropLast ++ [pyDropRight last 1 ++ "%"]
      else postout

/- ------------------------------------------------------------------
istest / findtests (cram.py lines 14-33).  The filesystem is modelled
as a tree; `os.walk` (external, stdlib) is modelled top-down in listing
order.  cram's loop does not prune the `dirs` list, so the walk
descends into every subdirectory, dot-named ones included; the
`continue` only skips yielding the files directly inside a dot-named
directory.
------------------------------------------------------------------ -/

/-- cram's `istest(path)`. -/
def istest (path : String) : Bool :=
  !pyStartsWith path "." && pyEndsWith path ".t"

/-- `os.path.join(root, f)` for the shapes used here. -/
def pyJoin (root f : String) : String :=
  if root = "" then f
  else if pyStartsWith f "/" then f
  else if pyEndsWith root "/" then root ++ f
  else root ++ "/" ++ f

/-- Helper: split on `/`, keeping empty components (Python `p.split('/')`). -/
def splitSlashAux : List Char → List Char → List (List Char)
  | acc, [] => [acc.reverse]
  | acc, c :: rest =>
      if c = '/' then acc.reverse :: splitSlashAux [] rest
      else splitSlashAux (c :: acc) rest

def splitSlash (s : String) : List String := (splitSlashAux [] s.data).map String.mk

def joinSlash : List String → String
  | [] => ""
  | [x] => x
  | x :: rest => x ++ "/" ++ joinSlash rest

/-- `os.path.basename(p)`: everything after the last slash. -/
def pyBasename (p : String) : String :=
  match (splitSlash p).getLast? with
  | none => p
  | some b => b

/-- `os.path.normpath` for relative paths without the POSIX double-slash
quirk: drop empty and `.` components, resolve `..` against a previous
component. -/
def normpathFold : List String → String → List String
  | acc, comp =>
      if comp = "" || comp = "." then acc
      else if comp = ".." then
        match acc.getLast? with
        | none => [".."]
        | some last => if last = ".." then acc ++ [".."] else acc.dropLast
      else acc ++ [comp]

def pyNormpath (p : String) : String :=
  let isAbs := pyStartsWith p "/"
  let comps := (splitSlash p).foldl normpathFold []
  let body := joinSlash comps
  if isAbs then "/" ++ body
  else if body = "" then "." else body

/-- Python string comparison: lexicographic by code point. -/
def lexLeChars : List Char → List Char → Bool
  | [], _ => true
  | _ :: _, [] => false
  | c :: cs, d :: ds =>
      if c.toNat < d.toNat then true
      else if d.toNat < c.toNat then false
      else lexLeChars cs ds

def pyStrLe (a b : String) : Bool := lexLeChars a.data b.data

/-- Stable insertion used by `pySorted`. -/
def pyInsert (x : String) : List String → List String
  | [] => [x]
  | y :: ys => if pyStrLe x y then x :: y :: ys else y :: pyInsert x ys

/-- Python `sorted()` on strings: a stable sort by the code-point
lexicographic order (insertion sort; directory listings contain no
duplicate names, so any stable correct sort models `sorted`). -/
def pySorted : List String → List String
  | [] => []
  | x :: xs => pyInsert x (pySorted xs)

/- A filesystem entry for the `os.walk` model (mutual with the entry
list so that all recursions below are structural). -/
mutual
inductive FSEntry where
  | file (name : String)
  | dir (name : String) (entries : FSList)
inductive FSList where
  | nil
  | cons (e : FSEntry) (rest : FSList)
end

def dirNames : FSList → List String
  | .nil => []
  | .cons (.dir n _) rest => n :: dirNames rest
  | .cons (.file _) rest => dirNames rest

def fileNames : FSList → List String
  | .nil => []
  | .cons (.file n) rest => n :: fileNames rest
  | .cons (.dir _ _) rest => fileNames rest

/-- Top-down `os.walk` over the children of a directory, in listing
order; no pruning of `dirs` happens anywhere in cram, so every
subdirectory is entered, dot-named ones included. -/
def walkList (root : String) : FSList → List (String × List String × List String)
  | .nil => []
  | .cons (FSEntry.file _) rest => walkList root rest
  | .cons (FSEntry.dir n es) rest =>
      (pyJoin root n, dirNames es, fileNames es) ::
        (walkList (pyJoin root n) es ++ walkList root rest)

/-- `os.walk(p)` where `p` names a directory with entries `es`. -/
def pyWalk (p : String) (es : FSList) :
    List (String × List String × List String) :=
  (p, dirNames es, fileNames es) :: walkList p es

/-- The body of cram's walk loop for one `(root, dirs, files)` triple:
skip everything when the basename of `root` starts with a dot,
otherwise yield the sorted files that pass `istest`. -/
def dirContribution (root : String) (files : List String) : List String :=
  if pyStartsWith (pyBasename root) "." then []
  else
    ((pySorted files).filter istest).map (fun f => pyNormpath (pyJoin root f))

/-- cram's `findtests(paths)`: each argument path either names a
directory (with its entry list) or a plain file (`none`). -/
def findtests (paths : List (String × Option FSList)) : List String :=
  paths.flatMap (fun pe =>
    match pe.2 with
    | some es => (pyWalk pe.1 es).flatMap (fun t => dirContribution t.1 t.2.2)
    | none => if istest (pyBasename pe.1) then [pyNormpath pe.1] else [])

/- ------------------------------------------------------------------
run() (cram.py lines 210-290).  The per-test execution is the `test`
function above (subprocess included), abstracted here as an oracle
`testf` returning `(refout, postout, diff-lines)`; `stat` gives
`os.stat(...).st_size`.  The interactive merge branch (lines 277-282)
changes no counters or verdicts and is outside the modelled claims
(`interactive=False`).  `executed` records the paths for which `test`
was invoked, `errWrites` the `.err` files written.
------------------------------------------------------------------ -/

structure RunSt where
  seen : List String
  skipped : Nat
  failed : Nat
  out : List String
  executed : List String
  errWrites : List (String × List String)
deriving DecidableEq

def initRunSt : RunSt := ⟨[], 0, 0, [], [], []⟩

/-- One iteration of `for path in findtests(paths)` (cram.py 232-286). -/
def processPath (stat : String → Nat)
    (testf : String → List String × List String × List String)
    (quiet verbose : Bool) (cwd : String) (st : RunSt) (path : String) : RunSt :=
  if path ∈ st.seen then st
  else
    let st := { st with seen := st.seen ++ [path] }
    let abspath := pyJoin cwd path
    let st := if verbose then { st with out := st.out ++ [path ++ ": "] } else st
    if stat abspath = 0 then
      { st with skipped := st.skipped + 1,
                out := st.out ++ [if verbose then "empty\n" else "s"] }
    else
      let st := { st with executed := st.executed ++ [path] }
      let r := testf abspath
      let postout := r.2.1
      let diff := r.2.2
      if diff ≠ [] then
        let st := { st with
          failed := st.failed + 1,
          out := st.out ++
            (if verbose then ["failed\n"]
             else ["!"] ++ (if !quiet then ["\n"] else [])),
          errWrites := st.errWrites ++ [(abspath ++ ".err", postout)] }
        if !quiet then { st with out := st.out ++ diff } else st
      else
        { st with out := st.out ++ [if verbose then "passed\n" else "."] }

/-- The loop of `run()` over the discovered paths. -/
def runGo (stat : String → Nat)
    (testf : String → List String × List String × List String)
    (quiet verbose : Bool) (cwd : String) : RunSt → List String → RunSt
  | st, [] => st
  | st, p :: ps =>
      runGo stat testf quiet verbose cwd
        (processPath stat testf quiet verbose cwd st p) ps

/-- cram's `run()` given the discovered test paths: the loop, then the
closing newline (non-verbose) and the summary line. -/
def runModel (stat : String → Nat)
    (testf : String → List String × List String × List String)
    (quiet verbose : Bool) (cwd : String) (found : List String) : RunSt :=
  let st := runGo stat testf quiet verbose cwd initRunSt found
  { st with out := st.out ++
      (if !verbose then ["\n"] else []) ++
      ["# Ran " ++ toString st.seen.length ++ " tests, " ++
        toString st.skipped ++ " skipped, " ++ toString st.failed ++
        " failed.\n"] }

/-- Invariant of the `run()` loop state: `seen` holds distinct paths;
`executed` is exactly the non-empty ones among them; the counters count
the empty ones and the executed-with-nonempty-diff ones. -/
def RunInv (stat : String → Nat)
    (testf : String → List String × List String × List String)
    (cwd : String) (st : RunSt) : Prop :=
  st.seen.Nodup ∧
  st.executed = st.seen.filter (fun p => !(stat (pyJoin cwd p) == 0)) ∧
  st.skipped = (st.seen.filter (fun p => stat (pyJoin cwd p) == 0)).length ∧
  st.failed = (st.seen.filter (fun p =>
    !(stat (pyJoin cwd p) == 0) && !((testf (pyJoin cwd p)).2.2.isEmpty))).length

/- ------------------------------------------------------------------
Shared lemmas.
------------------------------------------------------------------ -/

theorem zip_getElem?_some {α β : Type} (l1 : List α) :
    ∀ (l2 : List β) (j : Nat) (x : α) (y : β),
      (l1.zip l2)[j]? = some (x, y) → l1[j]? = some x ∧ l2[j]? = some y := by
  induction l1 with
  | nil => intro l2 j x y h; simp [List.zip] at h
  | cons a l ih =>
      intro l2 j x y h
      cases l2 with
      | nil => simp [List.zip] at h
      | cons b l2t =>
          cases j with
          | zero =>
              simp only [List.zip_cons_cons, List.getElem?_cons_zero,
                Option.some.injEq, Prod.mk.injEq] at h
              simp [h.1, h.2]
          | succ jt => simpa using ih l2t jt x y (by simpa using h)

theorem flmScan_mem :
    ∀ (ps : List (String × String)) (k : Nat) (m : Nat × String × String),
      m ∈ flmScan k ps → ∃ j, m.1 = k + j ∧ ps[j]? = some (m.2.1, m.2.2) := by
  intro ps
  induction ps with
  | nil => intro k m h; simp [flmScan] at h
  | cons p rest ih =>
      intro k m h
      obtain ⟨el, line⟩ := p
      simp only [flmScan, List.mem_append] at h
      rcases h with h1 | h2
      · by_cases hm : lineMatches el line
        · simp only [hm, if_true, List.mem_singleton] at h1
          subst h1
          exact ⟨0, by omega, by simp⟩
        · simp [hm] at h1
      · obtain ⟨j, hj1, hj2⟩ := ih (k + 1) m h2
        exact ⟨j + 1, by omega, by simpa using hj2⟩

theorem flmMatches_get (a b : List String) (alo ahi blo bhi : Nat) :
    ∀ m ∈ flmMatches a b alo ahi blo bhi, a[alo + m.1]? = some m.2.1 := by
  intro m hm
  obtain ⟨j, hj, hget⟩ := flmScan_mem _ 0 m hm
  have h1 := (zip_getElem?_some _ _ j _ _ hget).1
  have hjlt : j < ((a.drop alo).take (ahi - alo)).length := by
    rcases List.getElem?_eq_some.mp h1 with ⟨hlt, _⟩
    exact hlt
  have hjlt2 : j < ahi - alo := lt_of_lt_of_le hjlt (by simp)
  have h2 : (a.drop alo)[j]? = some m.2.1 := by
    rwa [pySlice, List.getElem?_take_of_lt hjlt2] at h1
  rw [List.getElem?_drop] at h2
  have : alo + m.1 = alo + j := by omega
  rwa [this]

theorem foldSet_length (alo : Nat) (g : Nat × String × String → String) :
    ∀ (ms : List (Nat × String × String)) (w : List String),
      (ms.foldl (fun acc m => acc.set (alo + m.1) (g m)) w).length = w.length := by
  intro ms
  induction ms with
  | nil => intro w; rfl
  | cons m rest ih => intro w; simp only [List.foldl_cons, ih, List.length_set]

theorem foldSet_getElem_untouched (alo : Nat) (g : Nat × String × String → String) :
    ∀ (ms : List (Nat × String × String)) (w : List String) (j : Nat),
      (∀ m ∈ ms, alo + m.1 ≠ j) →
      (ms.foldl (fun acc m => acc.set (alo + m.1) (g m)) w)[j]? = w[j]? := by
  intro ms
  induction ms with
  | nil => intro w j _; rfl
  | cons m rest ih =>
      intro w j h
      simp only [List.foldl_cons]
      rw [ih _ j (fun m2 hm2 => h m2 (List.mem_cons_of_mem _ hm2))]
      exact List.getElem?_set_ne (h m (List.mem_cons_self _ _))

theorem restore_recovers (alo : Nat) :
    ∀ (ms : List (Nat × String × String)) (a w : List String),
      w.length = a.length →
      (∀ j : Nat, (∀ m ∈ ms, alo + m.1 ≠ j) → w[j]? = a[j]?) →
      (∀ m ∈ ms, a[alo + m.1]? = some m.2.1) →
      ms.foldl (fun acc m => acc.set (alo + m.1) m.2.1) w = a := by
  intro ms
  induction ms with
  | nil =>
      intro a w _ hc _
      exact List.ext_getElem?_iff.mpr (fun j => hc j (by simp))
  | cons m rest ih =>
      intro a w hlen hc hmem
      simp only [List.foldl_cons]
      apply ih a (w.set (alo + m.1) m.2.1)
      · simp [List.length_set, hlen]
      · intro j hj
        by_cases hje : alo + m.1 = j
        · subst hje
          have hsome := hmem m (List.mem_cons_self _ _)
          have hlt : alo + m.1 < a.length := by
            rcases List.getElem?_eq_some.mp hsome with ⟨hlt, _⟩
            exact hlt
          rw [List.getElem?_set_self (by omega : alo + m.1 < w.length)]
          exact hsome.symm
        · rw [List.getElem?_set_ne hje]
          refine hc j (fun m2 hm2 => ?_)
          rcases List.mem_cons.mp hm2 with h | h
          · subst h; exact hje
          · exact hj m2 h
      · intro m2 hm2; exact hmem m2 (List.mem_cons_of_mem _ hm2)

theorem re_glob_tags_exclusive (el : String) :
    pyEndsWith el " (re)\n" = true → pyEndsWith el " (glob)\n" = false := by
  intro h
  by_contra hg
  rw [Bool.not_eq_false] at hg
  unfold pyEndsWith at h hg
  have h1 : " (re)\n".data <:+ el.data := List.isSuffixOf_iff_suffix.mp h
  have h2 : " (glob)\n".data <:+ el.data := List.isSuffixOf_iff_suffix.mp hg
  rcases List.suffix_or_suffix_of_suffix h1 h2 with hs | hs
  · have hb : (" (re)\n".data.isSuffixOf " (glob)\n".data) = true :=
      List.isSuffixOf_iff_suffix.mpr hs
    exact absurd hb (by decide)
  · have hb : (" (glob)\n".data.isSuffixOf " (re)\n".data) = true :=
      List.isSuffixOf_iff_suffix.mpr hs
    exact absurd hb (by decide)

/- ------------------------------------------------------------------
Claim C1.
------------------------------------------------------------------ -/

/-- Claim C1, counterexample: for `E = "foo (re)\n"` and `L = "foobar\n"`,
the untagged pattern `"foo"` does match as a regex anchored at the start
of `L`, yet the matcher does not treat `E` as equal to `L` — because the
code matches `el[:-6] + '\n'`, whose trailing newline must also be
consumed, i.e. the match must extend to the end of the line. -/
theorem claim_C1_counterexample :
    pyEndsWith "foo (re)\n" " (re)\n" = true ∧
    pyMatch (pyDropRight "foo (re)\n" 6) "foobar\n" = true ∧
    lineMatches "foo (re)\n" "foobar\n" = false :=
  ⟨by decide, by decide, by decide⟩

/-- Claim C1 (amended): for every expected line `E` ending in the tag
`" (re)\n"` and every actual line `L`, the matcher treats `E` as equal
to `L` iff the prefix of `E` followed by a newline matches as a regex
anchored at the start of `L`; since `L` contains a newline only at its
end, the match must extend through the entire line. -/
theorem claim_C1_amended (el line : String)
    (h : pyEndsWith el " (re)\n" = true) :
    lineMatches el line = pyMatch (pyDropRight el 6 ++ "\n") line := by
  unfold lineMatches lineMatchesE
  rw [h, re_glob_tags_exclusive el h]
  cases hpm : pyMatch (pyDropRight el 6 ++ "\n") line <;> simp [hpm]

/-- Witness for C1: concrete application at `E = "fo. (re)\n"`,
`L = "foo\n"` (where the pattern does match the whole line). -/
theorem claim_C1_witness :
    pyEndsWith "fo. (re)\n" " (re)\n" = true ∧
    lineMatches "fo. (re)\n" "foo\n" =
      pyMatch (pyDropRight "fo. (re)\n" 6 ++ "\n") "foo\n" ∧
    lineMatches "fo. (re)\n" "foo\n" = true :=
  ⟨by decide, claim_C1_amended "fo. (re)\n" "foo\n" (by decide), by decide⟩

/- ------------------------------------------------------------------
Claim C2.
------------------------------------------------------------------ -/

/-- Claim C2: for every call of `find_longest_match` — whatever the
superclass block matcher computes on the substituted sequence — the
expected-line sequence `self.a` is restored to exactly its prior value
before the method returns, so a rendered diff shows the original tagged
expected lines. -/
theorem claim_C2 (superFLM : List String → List String → Nat × Nat × Nat)
    (a b : List String) (alo ahi blo bhi : Nat) :
    (find_longest_match superFLM a b alo ahi blo bhi).1 = a := by
  unfold find_longest_match
  apply restore_recovers alo (flmMatches a b alo ahi blo bhi) a
  · exact foldSet_length alo (fun m => m.2.2) _ a
  · intro j hj
    exact foldSet_getElem_untouched alo (fun m => m.2.2) _ a j hj
  · exact flmMatches_get a b alo ahi blo bhi

/- ------------------------------------------------------------------
Claim C6.
------------------------------------------------------------------ -/

/-- Claim C6: if the grouped diff produces zero hunks, `unified_diff`
yields no lines at all — not even the `---`/`+++` headers — and in
`run()` an executed test whose diff is empty is the pass signal: it
yields `'.'` (or `"passed"`) and leaves the failed counter unchanged. -/
theorem claim_C6 :
    (∀ (a b : List String) (ff tf fd td lt : String),
      unified_diff a b ff tf fd td lt [] = []) ∧
    (∀ (stat : String → Nat)
        (testf : String → List String × List String × List String)
        (quiet verbose : Bool) (cwd : String) (st : RunSt) (p : String),
      p ∉ st.seen → stat (pyJoin cwd p) ≠ 0 → (testf (pyJoin cwd p)).2.2 = [] →
      processPath stat testf quiet verbose cwd st p =
        { st with seen := st.seen ++ [p],
                  executed := st.executed ++ [p],
                  out := st.out ++
                    (if verbose then [p ++ ": ", "passed\n"] else ["."]) }) := by
  constructor
  · intro a b ff tf fd td lt; rfl
  · intro stat testf quiet verbose cwd st p hseen hsz hdiff
    unfold processPath
    rw [if_neg hseen]
    cases verbose <;> simp [hsz, hdiff]

/-- Witness for C6: the pass equation applied at a concrete state. -/
theorem claim_C6_witness :
    processPath (fun _ => 3) (fun _ => ([], [], [])) false false "" initRunSt "x.t" =
      { initRunSt with seen := ["x.t"], executed := ["x.t"], out := ["."] } := by
  have h := claim_C6.2 (fun _ => 3) (fun _ => ([], [], [])) false false ""
    initRunSt "x.t" (by simp [initRunSt]) (by simp) (by simp)
  simpa [initRunSt] using h

/- ------------------------------------------------------------------
Claims C3 and C5: the sentinel step of the reconstruction loop.
------------------------------------------------------------------ -/

/-- Full characterization of `reconStep` on a sentinel line with a
non-empty output buffer: the last buffered line is popped; the bare
blank `"  \n"` is discarded while any other line is re-appended with its
newline replaced by `"%\n"`; a nonzero exit code appends `"  [c]\n"`;
then the deferred commentary for the closing group follows. -/
theorem reconStep_sentinel (salt : String) (st : ReconSt) (line : String)
    (ps : List String) (l s1 s2 : String) (ip rc : Int)
    (hpost : st.postout = ps ++ [l])
    (hsalt : pyStartsWith line salt = true)
    (h1 : (pySplitWS line)[1]? = some s1) (hip : pyInt s1 = some ip)
    (h2 : (pySplitWS line)[2]? = some s2) (hrc : pyInt s2 = some rc) :
    reconStep salt st line = some ⟨(popAfter st.after st.pos).2,
      ((if l = "  \n" then ps else ps ++ [pyDropRight l 1 ++ "%\n"]) ++
        (if rc ≠ 0 then ["  [" ++ toString rc ++ "]\n"] else []) ++
        (popAfter st.after st.pos).1), ip, rc⟩ := by
  unfold reconStep
  simp only [hsalt, if_true, hpost, List.getLast?_concat, List.dropLast_concat,
    h1, h2, hip, hrc]
  by_cases hl : l = "  \n" <;> by_cases hc : rc = 0 <;>
    simp [hl, hc, List.append_assoc]

/-- Claim C3, counterexample: at a sentinel, a buffered bare blank line
`"  \n"` is dropped entirely (not rewritten to a `%`-marked line as the
claim states), while a buffered non-blank line `"  hi\n"` is rewritten
to `"  hi%\n"` (not left unchanged).  `claimedSentinelBlankFix` follows
the claim's words; `reconStep` is the code. -/
theorem claim_C3_counterexample :
    reconStep "CRAM1" ⟨[], ["  \n"], -1, 0⟩ "CRAM1 0 0\n" =
      some ⟨[], [], 0, 0⟩ ∧
    claimedSentinelBlankFix ["  \n"] = ["  %"] ∧
    ([] : List String) ≠ ["  %"] ∧
    reconStep "CRAM1" ⟨[], ["  hi\n"], -1, 0⟩ "CRAM1 0 0\n" =
      some ⟨[], ["  hi%\n"], 0, 0⟩ ∧
    claimedSentinelBlankFix ["  hi\n"] = ["  hi\n"] ∧
    (["  hi%\n"] : List String) ≠ (["  hi\n"] : List String) :=
  ⟨by decide, by decide, by decide, by decide, by decide, by decide⟩

/-- Claim C3 (amended): when a sentinel line is read and output is
buffered, the last collected line is removed; if it is the bare blank
marker-line `"  \n"` it is discarded (it is the artifact of the
sentinel's own leading echoed newline); any other line — one whose
content ran into the echoed newline, i.e. command output without a
trailing newline — is re-appended with its trailing newline replaced by
the literal `%` marker. -/
theorem claim_C3_amended (salt : String) (st : ReconSt) (line : String)
    (ps : List String) (l s1 s2 : String) (ip rc : Int)
    (hpost : st.postout = ps ++ [l])
    (hsalt : pyStartsWith line salt = true)
    (h1 : (pySplitWS line)[1]? = some s1) (hip : pyInt s1 = some ip)
    (h2 : (pySplitWS line)[2]? = some s2) (hrc : pyInt s2 = some rc) :
    ∃ st2, reconStep salt st line = some st2 ∧
      st2.postout =
        (if l = "  \n" then ps else ps ++ [pyDropRight l 1 ++ "%\n"]) ++
        (if rc ≠ 0 then ["  [" ++ toString rc ++ "]\n"] else []) ++
        (popAfter st.after st.pos).1 :=
  ⟨_, reconStep_sentinel salt st line ps l s1 s2 ip rc hpost hsalt h1 hip h2 hrc,
    rfl⟩

/-- Witness for C3: concrete sentinel steps for a blank and a non-blank
buffered line. -/
theorem claim_C3_witness :
    (∃ st2, reconStep "CRAM9" ⟨[], ["  out\n"], -1, 0⟩ "CRAM9 4 0\n" = some st2 ∧
      st2.postout = ["  out%\n"]) ∧
    (∃ st2, reconStep "CRAM9" ⟨[], ["  a\n", "  \n"], -1, 0⟩ "CRAM9 4 0\n" = some st2 ∧
      st2.postout = ["  a\n"]) := by
  constructor
  · obtain ⟨st2, he, hp⟩ := claim_C3_amended "CRAM9" ⟨[], ["  out\n"], -1, 0⟩
      "CRAM9 4 0\n" [] "  out\n" "4" "0" 4 0 (by decide) (by decide)
      (by decide) (by decide) (by decide) (by decide)
    exact ⟨st2, he, by simpa using hp⟩
  · obtain ⟨st2, he, hp⟩ := claim_C3_amended "CRAM9" ⟨[], ["  a\n", "  \n"], -1, 0⟩
      "CRAM9 4 0\n" ["  a\n"] "  \n" "4" "0" 4 0 (by decide) (by decide)
      (by decide) (by decide) (by decide) (by decide)
    exact ⟨st2, he, by simpa using hp⟩

/-- Claim C5: a sentinel reporting a nonzero exit code `c` makes the
runner append the synthetic line `"  [c]\n"` right after the group's
captured output (before the deferred commentary); consequently, at the
transcript level, a command exiting 1 with output `err` in a file whose
expected output ends with the line `  [1]` reconstructs to exactly the
expected transcript (empty diff = pass), while a command exiting 7 with
no declared `[7]` line reconstructs to the expected transcript plus an
inserted `"  [7]\n"`. -/
theorem claim_C5 :
    (∀ (salt : String) (st : ReconSt) (line : String)
        (ps : List String) (l s1 s2 : String) (ip rc : Int),
      st.postout = ps ++ [l] →
      pyStartsWith line salt = true →
      (pySplitWS line)[1]? = some s1 → pyInt s1 = some ip →
      (pySplitWS line)[2]? = some s2 → pyInt s2 = some rc →
      rc ≠ 0 →
      reconStep salt st line = some ⟨(popAfter st.after st.pos).2,
        ((if l = "  \n" then ps else ps ++ [pyDropRight l 1 ++ "%\n"]) ++
          ["  [" ++ toString rc ++ "]\n"] ++
          (popAfter st.after st.pos).1), ip, rc⟩) ∧
    (parseFile ["  $ cmd\n", "  err\n", "  [1]\n"]).refout =
      ["  $ cmd\n", "  err\n", "  [1]\n"] ∧
    reconstruct "CRAM1" (parseFile ["  $ cmd\n", "  err\n", "  [1]\n"]).after
        ["\n", "CRAM1 0 0\n", "err\n", "\n", "CRAM1 3 1\n"] =
      some ["  $ cmd\n", "  err\n", "  [1]\n"] ∧
    reconstruct "CRAM1" (parseFile ["  $ cmd\n", "  hi\n"]).after
        ["\n", "CRAM1 0 0\n", "hi\n", "\n", "CRAM1 2 7\n"] =
      some ((parseFile ["  $ cmd\n", "  hi\n"]).refout ++ ["  [7]\n"]) := by
  refine ⟨?_, by decide, by decide, by decide⟩
  intro salt st line ps l s1 s2 ip rc hpost hsalt h1 hip h2 hrc hrc0
  have h := reconStep_sentinel salt st line ps l s1 s2 ip rc hpost hsalt h1 hip h2 hrc
  rw [h]
  simp [hrc0]

/-- Witness for C5: the nonzero-exit append at a concrete sentinel. -/
theorem claim_C5_witness :
    reconStep "CRAM9" ⟨[], ["  err\n", "  \n"], -1, 0⟩ "CRAM9 3 1\n" =
      some ⟨[], ["  err\n", "  [1]\n"], 3, 1⟩ := by
  have h := claim_C5.1 "CRAM9" ⟨[], ["  err\n", "  \n"], -1, 0⟩ "CRAM9 3 1\n"
    ["  err\n"] "  \n" "3" "1" 3 1 (by decide) (by decide) (by decide)
    (by decide) (by decide) (by decide) (by decide)
  rw [h]
  decide

/- ------------------------------------------------------------------
Claim C4: malformed patterns.
------------------------------------------------------------------ -/

/-- `Option.map` preserves `isSome`. -/
theorem isSome_map_opt {α β : Type} (f : α → β) (o : Option α) :
    (Option.map f o).isSome = o.isSome := by cases o <;> rfl

/-- The glob translation only raises (returns `none`) when the pattern
ends in a lone backslash. -/
theorem globTranslate_isSome (cs : List Char) :
    cs.getLast? ≠ some '\\' → (globTranslate cs).isSome := by
  induction cs using globTranslate.induct with
  | case1 => intro h; simp [globTranslate]
  | case2 => intro h; simp at h
  | case3 d r2 hd ih =>
      intro h
      cases r2 with
      | nil => simp [globTranslate, hd]
      | cons x xs =>
          simp [globTranslate, hd, isSome_map_opt]
          exact ih (by simpa only [List.getLast?_cons_cons] using h)
  | case4 d r2 hd ih =>
      intro h
      simp [globTranslate, hd, isSome_map_opt]
      exact ih (by simpa only [List.getLast?_cons_cons] using h)
  | case5 rest hx1 hx2 ih =>
      intro h
      cases rest with
      | nil => simp [globTranslate]
      | cons x xs =>
          simp [globTranslate, isSome_map_opt]
          exact ih (by simpa only [List.getLast?_cons_cons] using h)
  | case6 rest hx1 hx2 hne ih =>
      intro h
      cases rest with
      | nil => simp [globTranslate]
      | cons x xs =>
          simp [globTranslate, isSome_map_opt]
          exact ih (by simpa only [List.getLast?_cons_cons] using h)
  | case7 c rest hx1 hx2 hne1 hne2 ih =>
      intro h
      rw [globTranslate.eq_4 c rest hx1 hx2, if_neg hne1, if_neg hne2,
        isSome_map_opt]
      cases rest with
      | nil => simp [globTranslate]
      | cons x xs =>
          exact ih (by simpa only [List.getLast?_cons_cons] using h)

/-- Evaluated through the tagged-line matcher, the pattern test never
raises: the glob pattern always ends in the appended newline, so the
escape lookup never runs off the end of the string. -/
theorem lineMatchesE_isSome (el line : String) :
    (lineMatchesE el line).isSome := by
  unfold lineMatchesE
  by_cases h1 : pyEndsWith el " (re)\n" && pyMatch (pyDropRight el 6 ++ "\n") line
  · simp [h1]
  · simp only [h1, Bool.false_eq_true, if_false]
    by_cases h2 : pyEndsWith el " (glob)\n"
    · simp only [h2, if_true]
      unfold pyGlobE
      rw [isSome_map_opt]
      apply globTranslate_isSome
      have hdata : (pyDropRight el 8 ++ "\n").data =
          (pyDropRight el 8).data ++ ['\n'] := rfl
      rw [hdata, List.getLast?_concat]
      simp
    · simp [h2]

/-- Claim C4, counterexample: the expected line `"a\ (glob)\n"` carries
the glob tag and its pattern text `"a\"` ends in a lone backslash — the
claim's example of a malformed pattern — yet evaluating it against the
actual line `"a\\n"` (letter, backslash, newline) succeeds: the
appended newline turns the trailing backslash into a literal, so the
pattern matches rather than uniformly failing. -/
theorem claim_C4_counterexample :
    pyEndsWith "a\\ (glob)\n" " (glob)\n" = true ∧
    pyDropRight "a\\ (glob)\n" 8 = "a\\" ∧
    pyEndsWith "a\\" "\\" = true ∧
    lineMatches "a\\ (glob)\n" "a\\\n" = true :=
  ⟨by decide, by decide, by decide, by decide⟩

/-- Claim C4 (amended): (1) evaluating any tagged expected line against
any actual line through the matcher never raises (the newline appended
to a glob pattern keeps the escape-scan in range); (2) a `(re)`-tagged
line whose pattern does not compile matches no line (the `re.error` is
caught and reported as no-match); but (3) a glob pattern ending in a
lone backslash is not rejected by the matcher — it is read as a literal
backslash and can match (see the counterexample) — and a direct `_glob`
call on such a pattern, without the appended newline, raises an
uncaught `IndexError` (modelled as `none`). -/
theorem claim_C4_amended :
    (∀ el line : String, (lineMatchesE el line).isSome) ∧
    (∀ el line : String, pyEndsWith el " (re)\n" = true →
      parseRgx (pyDropRight el 6 ++ "\n").data = none →
      lineMatches el line = false) ∧
    pyGlobE "a\\" "a" = none := by
  refine ⟨lineMatchesE_isSome, ?_, by decide⟩
  intro el line hre hbad
  unfold lineMatches lineMatchesE
  have hm : pyMatch (pyDropRight el 6 ++ "\n") line = false := by
    unfold pyMatch pyMatchL
    rw [hbad]
  rw [re_glob_tags_exclusive el hre]
  simp [hm]

/-- Witness for C4: `"a( (re)\n"` carries an invalid regex (unbalanced
parenthesis); the matcher rejects every line without raising. -/
theorem claim_C4_witness :
    (lineMatchesE "a( (re)\n" "a(\n").isSome = true ∧
    parseRgx (pyDropRight "a( (re)\n" 6 ++ "\n").data = none ∧
    lineMatches "a( (re)\n" "a(\n" = false :=
  ⟨claim_C4_amended.1 "a( (re)\n" "a(\n",
   by decide,
   claim_C4_amended.2.1 "a( (re)\n" "a(\n" (by decide) (by decide)⟩

/- ------------------------------------------------------------------
Claim C7: glob patterns without special characters.
------------------------------------------------------------------ -/

theorem matchHere_fail : ∀ s : List Char, matchHere Rgx.fail s = false := by
  intro s
  induction s with
  | nil => rfl
  | cons c s ih => simp [matchHere, rderiv, nullable, ih]

theorem matchHere_alt : ∀ (s : List Char) (a b : Rgx),
    matchHere (Rgx.alt a b) s = (matchHere a s || matchHere b s) := by
  intro s
  induction s with
  | nil => intro a b; rfl
  | cons c s ih =>
      intro a b
      simp only [matchHere, rderiv, nullable, ih]
      cases nullable a <;> cases nullable b <;>
        simp [Bool.or_assoc, Bool.or_comm, Bool.or_left_comm]

theorem matchHere_cat_fail : ∀ (s : List Char) (r : Rgx),
    matchHere (Rgx.cat Rgx.fail r) s = false := by
  intro s
  induction s with
  | nil => intro r; rfl
  | cons c s ih => intro r; simp [matchHere, rderiv, nullable, ih]

theorem matchHere_cat_eps : ∀ (s : List Char) (r : Rgx),
    matchHere (Rgx.cat Rgx.eps r) s = matchHere r s := by
  intro s
  induction s with
  | nil => intro r; simp [matchHere, nullable]
  | cons c s ih =>
      intro r
      simp [matchHere, rderiv, nullable, matchHere_alt, matchHere_cat_fail]

theorem matchHere_lit : ∀ (cs l : List Char),
    matchHere (litRgx cs) l = cs.isPrefixOf l := by
  intro cs
  induction cs with
  | nil =>
      intro l
      cases l <;> simp [litRgx, matchHere, nullable, List.isPrefixOf]
  | cons c cs2 ih =>
      intro l
      cases l with
      | nil => simp [litRgx, matchHere, nullable, List.isPrefixOf]
      | cons d l2 =>
          simp only [litRgx, matchHere, nullable, rderiv, Bool.and_eq_true,
            Bool.false_and, Bool.false_or, List.isPrefixOf]
          by_cases hdc : d = c
          · subst hdc
            simp [matchHere_cat_eps, ih]
          · have hcd : ¬(c = d) := fun he => hdc he.symm
            simp [hdc, hcd, matchHere_cat_fail, BEq.beq]

/-- The glob translation of a pattern without special characters is the
character-wise escape. -/
theorem escChars_globTranslate : ∀ cs : List Char,
    (∀ c ∈ cs, c ≠ '*' ∧ c ≠ '?' ∧ c ≠ '\\') →
    globTranslate cs = some (escChars cs) := by
  intro cs
  induction cs with
  | nil => intro h; rfl
  | cons c cs2 ih =>
      intro h
      obtain ⟨h1, h2, h3⟩ := h c (List.mem_cons_self _ _)
      have hrest : ∀ c2 ∈ cs2, c2 ≠ '*' ∧ c2 ≠ '?' ∧ c2 ≠ '\\' :=
        fun c2 hc2 => h c2 (List.mem_cons_of_mem _ hc2)
      rw [globTranslate.eq_4 c cs2 (fun he _ => h3 he) (fun _ _ he _ => h3 he),
        if_neg h1, if_neg h2, ih hrest]
      rfl

theorem escChars_head (cs : List Char) :
    (escChars cs).head? ≠ some '*' ∧ (escChars cs).head? ≠ some '+' ∧
      (escChars cs).head? ≠ some '?' := by
  cases cs with
  | nil => simp [escChars]
  | cons c cs2 =>
      by_cases h : c.isAlphanum
      · simp only [escChars, reEscape, h, if_true, List.cons_append,
          List.head?_cons]
        refine ⟨?_, ?_, ?_⟩ <;> intro he <;>
          rw [Option.some.injEq] at he <;> subst he <;> simp at h
      · simp [escChars, reEscape, h]

theorem parseAtom_alnum (c : Char) (rest : List Char)
    (h : c.isAlphanum = true) : parseAtom c rest = some (Rgx.chr c, rest) := by
  have h1 : c ≠ '.' := fun he => by subst he; simp at h
  have h2 : c ≠ '\\' := fun he => by subst he; simp at h
  have h3 : c ∉ reMetas := by
    intro hm
    simp only [reMetas, List.mem_cons, List.not_mem_nil, or_false] at hm
    rcases hm with rfl|rfl|rfl|rfl|rfl|rfl|rfl|rfl|rfl|rfl|rfl|rfl <;> simp at h
  unfold parseAtom
  rw [if_neg h1, if_neg h2, if_neg h3]

theorem parseAtom_backslash (d : Char) (r2 : List Char)
    (h : d.isAlphanum = false) :
    parseAtom '\\' (d :: r2) = some (Rgx.chr d, r2) := by
  unfold parseAtom
  simp [h]

/-- Parsing an escaped literal string yields the literal regex. -/
theorem parseSeqF_escChars : ∀ (cs : List Char) (f : Nat),
    (escChars cs).length + 1 ≤ f → parseSeqF f (escChars cs) = some (litRgx cs) := by
  intro cs
  induction cs with
  | nil =>
      intro f hf
      cases f with
      | zero => omega
      | succ f2 => simp [escChars, parseSeqF, litRgx]
  | cons c cs2 ih =>
      intro f hf
      obtain ⟨g1, g2, g3⟩ := escChars_head cs2
      by_cases hal : c.isAlphanum
      · have hesc : escChars (c :: cs2) = c :: escChars cs2 := by
          simp [escChars, reEscape, hal]
        rw [hesc] at hf ⊢
        cases f with
        | zero => omega
        | succ f2 =>
            simp only [parseSeqF, parseAtom_alnum c _ hal]
            rw [if_neg g1, if_neg g2, if_neg g3,
              ih f2 (by simp at hf; omega)]
            rfl
      · have hesc : escChars (c :: cs2) = '\\' :: c :: escChars cs2 := by
          simp [escChars, reEscape, hal]
        rw [hesc] at hf ⊢
        cases f with
        | zero => omega
        | succ f2 =>
            simp only [parseSeqF,
              parseAtom_backslash c _ (Bool.not_eq_true _ ▸ hal)]
            rw [if_neg g1, if_neg g2, if_neg g3,
              ih f2 (by simp at hf; omega)]
            rfl

/-- Claim C7, counterexample: `s = "a"` has no glob special characters,
and `_glob("a", "ab")` succeeds although `"ab" ≠ "a"` — the compiled
pattern is applied with `re.match`, which anchors at the start only, so
a special-free glob matches every line it prefixes, not just itself. -/
theorem claim_C7_counterexample :
    (∀ c ∈ ("a" : String).data, c ≠ '*' ∧ c ≠ '?' ∧ c ≠ '\\') ∧
    pyGlobE "a" "ab" = some true ∧
    ("ab" : String) ≠ ("a" : String) :=
  ⟨by decide, by decide, by decide⟩

/-- Claim C7 (amended): for every string `s` containing none of `*`,
`?`, `\`, `_glob(s, l)` succeeds iff `s` is a prefix of `l` (in the
matcher's actual use the pattern additionally carries the line's
trailing newline, which restores the matches-only-itself behavior). -/
theorem claim_C7_amended (s l : String)
    (h : ∀ c ∈ s.data, c ≠ '*' ∧ c ≠ '?' ∧ c ≠ '\\') :
    pyGlobE s l = some (s.data.isPrefixOf l.data) := by
  unfold pyGlobE
  rw [escChars_globTranslate s.data h]
  simp only [Option.map_some']
  unfold pyMatchL parseRgx
  rw [parseSeqF_escChars s.data ((escChars s.data).length + 1) (le_refl _)]
  show some (matchHere (litRgx s.data) l.data) = some (s.data.isPrefixOf l.data)
  rw [matchHere_lit]

/-- Witness for C7: concrete prefix and non-prefix cases. -/
theorem claim_C7_witness :
    pyGlobE "ab" "abc" = some (("ab" : String).data.isPrefixOf ("abc" : String).data) ∧
    pyGlobE "ab" "abc" = some true ∧
    pyGlobE "ab" "ab" = some true ∧
    pyGlobE "ab" "zb" = some false :=
  ⟨claim_C7_amended "ab" "abc" (by decide), by decide, by decide, by decide⟩

/- ------------------------------------------------------------------
Claims C8 and C10: the run() loop.
------------------------------------------------------------------ -/

/-- A path already seen is skipped without any effect. -/
theorem processPath_seen_skip (stat : String → Nat)
    (testf : String → List String × List String × List String)
    (quiet verbose : Bool) (cwd : String) (st : RunSt) (q : String)
    (h : q ∈ st.seen) :
    processPath stat testf quiet verbose cwd st q = st := by
  unfold processPath
  rw [if_pos h]

/-- `seen` after one step. -/
theorem processPath_seen (stat : String → Nat)
    (testf : String → List String × List String × List String)
    (quiet verbose : Bool) (cwd : String) (st : RunSt) (q : String) :
    (processPath stat testf quiet verbose cwd st q).seen =
      if q ∈ st.seen then st.seen else st.seen ++ [q] := by
  unfold processPath
  by_cases h : q ∈ st.seen
  · rw [if_pos h, if_pos h]
  · rw [if_neg h, if_neg h]
    by_cases hz : stat (pyJoin cwd q) = 0 <;>
      by_cases hd : (testf (pyJoin cwd q)).2.2 = [] <;>
      cases verbose <;> cases quiet <;> simp [hz, hd]

/-- One step preserves the invariant. -/
theorem processPath_inv (stat : String → Nat)
    (testf : String → List String × List String × List String)
    (quiet verbose : Bool) (cwd : String) (st : RunSt) (q : String)
    (hinv : RunInv stat testf cwd st) :
    RunInv stat testf cwd (processPath stat testf quiet verbose cwd st q) := by
  obtain ⟨h1, h2, h3, h4⟩ := hinv
  by_cases h : q ∈ st.seen
  · rw [processPath_seen_skip stat testf quiet verbose cwd st q h]
    exact ⟨h1, h2, h3, h4⟩
  · unfold processPath RunInv
    rw [if_neg h]
    by_cases hz : stat (pyJoin cwd q) = 0 <;>
      by_cases hd : (testf (pyJoin cwd q)).2.2 = [] <;>
      cases verbose <;> cases quiet <;>
      simp [hz, hd, List.filter_append, List.nodup_append, h, h1, h2, h3, h4]

/-- The loop preserves the invariant. -/
theorem runGo_inv (stat : String → Nat)
    (testf : String → List String × List String × List String)
    (quiet verbose : Bool) (cwd : String) :
    ∀ (ps : List String) (st : RunSt), RunInv stat testf cwd st →
      RunInv stat testf cwd (runGo stat testf quiet verbose cwd st ps) := by
  intro ps
  induction ps with
  | nil => intro st h; exact h
  | cons q rest ih =>
      intro st h
      exact ih _ (processPath_inv stat testf quiet verbose cwd st q h)

/-- Membership in `seen` after the loop. -/
theorem runGo_seen_mem (stat : String → Nat)
    (testf : String → List String × List String × List String)
    (quiet verbose : Bool) (cwd : String) :
    ∀ (ps : List String) (st : RunSt) (a : String),
      a ∈ (runGo stat testf quiet verbose cwd st ps).seen ↔
        a ∈ st.seen ∨ a ∈ ps := by
  intro ps
  induction ps with
  | nil => intro st a; simp [runGo]
  | cons q rest ih =>
      intro st a
      simp only [runGo, ih, processPath_seen]
      by_cases h : q ∈ st.seen
      · rw [if_pos h]
        constructor
        · rintro (ha | ha)
          · exact Or.inl ha
          · exact Or.inr (List.mem_cons_of_mem _ ha)
        · rintro (ha | ha)
          · exact Or.inl ha
          · rcases List.mem_cons.mp ha with rfl | ha
            · exact Or.inl h
            · exact Or.inr ha
      · rw [if_neg h]
        simp [List.mem_append, List.mem_cons]
        tauto

/-- The loop over an appended list is the composition of the loops. -/
theorem runGo_append (stat : String → Nat)
    (testf : String → List String × List String × List String)
    (quiet verbose : Bool) (cwd : String) :
    ∀ (xs ys : List String) (st : RunSt),
      runGo stat testf quiet verbose cwd st (xs ++ ys) =
        runGo stat testf quiet verbose cwd
          (runGo stat testf quiet verbose cwd st xs) ys := by
  intro xs
  induction xs with
  | nil => intro ys st; rfl
  | cons q rest ih => intro ys st; simp [runGo, ih]

/-- After the loop, `seen` (with the invariant) is a permutation of the
deduplicated input list, when starting from the initial state. -/
theorem runGo_seen_perm (stat : String → Nat)
    (testf : String → List String × List String × List String)
    (quiet verbose : Bool) (cwd : String) (found : List String) :
    (runGo stat testf quiet verbose cwd initRunSt found).seen.Perm found.dedup := by
  have hinv := runGo_inv stat testf quiet verbose cwd found initRunSt
    ⟨List.nodup_nil, rfl, rfl, rfl⟩
  refine (List.perm_ext_iff_of_nodup hinv.1 (List.nodup_dedup found)).mpr ?_
  intro a
  rw [runGo_seen_mem, List.mem_dedup]
  simp [initRunSt]

/-- Claim C8: a zero-byte test file is reported `s`/`empty` without any
test execution: the step equation, the never-executed guarantee, the
counter characterizations (a zero-size path counts into `skipped`,
never into `failed`), and the summary line carrying those counters. -/
theorem claim_C8 (stat : String → Nat)
    (testf : String → List String × List String × List String)
    (quiet verbose : Bool) (cwd : String) (found : List String) :
    (∀ (st : RunSt) (p : String), p ∉ st.seen → stat (pyJoin cwd p) = 0 →
      processPath stat testf quiet verbose cwd st p =
        { st with seen := st.seen ++ [p], skipped := st.skipped + 1,
                  out := st.out ++
                    (if verbose then [p ++ ": ", "empty\n"] else ["s"]) }) ∧
    (∀ p ∈ (runModel stat testf quiet verbose cwd found).executed,
      stat (pyJoin cwd p) ≠ 0) ∧
    (runModel stat testf quiet verbose cwd found).skipped =
      (found.dedup.filter (fun p => stat (pyJoin cwd p) == 0)).length ∧
    (runModel stat testf quiet verbose cwd found).failed =
      (found.dedup.filter (fun p =>
        !(stat (pyJoin cwd p) == 0) &&
          !((testf (pyJoin cwd p)).2.2.isEmpty))).length ∧
    (runModel stat testf quiet verbose cwd found).out.getLast? =
      some ("# Ran " ++
        toString (runModel stat testf quiet verbose cwd found).seen.length ++
        " tests, " ++
        toString (runModel stat testf quiet verbose cwd found).skipped ++
        " skipped, " ++
        toString (runModel stat testf quiet verbose cwd found).failed ++
        " failed.\n") := by
  have hinv := runGo_inv stat testf quiet verbose cwd found initRunSt
    ⟨List.nodup_nil, rfl, rfl, rfl⟩
  have hperm := runGo_seen_perm stat testf quiet verbose cwd found
  refine ⟨?_, ?_, ?_, ?_, ?_⟩
  · intro st p hseen hz
    unfold processPath
    rw [if_neg hseen]
    cases verbose <;> simp [hz]
  · intro p hp
    have h2 := hinv.2.1
    intro hz
    rw [show (runModel stat testf quiet verbose cwd found).executed =
      (runGo stat testf quiet verbose cwd initRunSt found).executed from rfl,
      h2] at hp
    have := List.of_mem_filter hp
    simp [hz] at this
  · rw [show (runModel stat testf quiet verbose cwd found).skipped =
      (runGo stat testf quiet verbose cwd initRunSt found).skipped from rfl,
      hinv.2.2.1]
    exact (hperm.filter _).length_eq
  · rw [show (runModel stat testf quiet verbose cwd found).failed =
      (runGo stat testf quiet verbose cwd initRunSt found).failed from rfl,
      hinv.2.2.2]
    exact (hperm.filter _).length_eq
  · unfold runModel
    cases verbose <;> simp

/-- Witness for C8: the zero-size step equation at a concrete state. -/
theorem claim_C8_witness :
    processPath (fun _ => 0) (fun _ => ([], [], [])) false false "" initRunSt "e.t" =
      { initRunSt with seen := ["e.t"], skipped := 1, out := ["s"] } := by
  have h := (claim_C8 (fun _ => 0) (fun _ => ([], [], [])) false false "" []).1
    initRunSt "e.t" (by simp [initRunSt]) rfl
  simpa [initRunSt] using h

/-- Claim C10: within one `run()`, a path reached twice is silently
skipped the second time (dropping a duplicate from the discovered list
does not change the result at all), every path is executed at most
once, and the summary's test count is the number of distinct paths —
skipped files included. -/
theorem claim_C10 (stat : String → Nat)
    (testf : String → List String × List String × List String)
    (quiet verbose : Bool) (cwd : String) (found pre suf : List String)
    (q : String) (hq : q ∈ pre) :
    (∀ (st : RunSt) (p : String), p ∈ st.seen →
      processPath stat testf quiet verbose cwd st p = st) ∧
    runModel stat testf quiet verbose cwd (pre ++ q :: suf) =
      runModel stat testf quiet verbose cwd (pre ++ suf) ∧
    (runModel stat testf quiet verbose cwd found).executed.Nodup ∧
    (runModel stat testf quiet verbose cwd found).seen.length =
      found.dedup.length ∧
    (runModel stat testf quiet verbose cwd found).out.getLast? =
      some ("# Ran " ++ toString found.dedup.length ++ " tests, " ++
        toString (runModel stat testf quiet verbose cwd found).skipped ++
        " skipped, " ++
        toString (runModel stat testf quiet verbose cwd found).failed ++
        " failed.\n") := by
  have hinv := runGo_inv stat testf quiet verbose cwd found initRunSt
    ⟨List.nodup_nil, rfl, rfl, rfl⟩
  have hperm := runGo_seen_perm stat testf quiet verbose cwd found
  refine ⟨processPath_seen_skip stat testf quiet verbose cwd, ?_, ?_, ?_, ?_⟩
  · have hmem : q ∈ (runGo stat testf quiet verbose cwd initRunSt pre).seen := by
      rw [runGo_seen_mem]
      exact Or.inr hq
    have hgo : runGo stat testf quiet verbose cwd initRunSt (pre ++ q :: suf) =
        runGo stat testf quiet verbose cwd initRunSt (pre ++ suf) := by
      rw [runGo_append, runGo_append]
      simp only [runGo]
      rw [processPath_seen_skip stat testf quiet verbose cwd _ q hmem]
    unfold runModel
    rw [hgo]
  · rw [show (runModel stat testf quiet verbose cwd found).executed =
      (runGo stat testf quiet verbose cwd initRunSt found).executed from rfl,
      hinv.2.1]
    exact hinv.1.filter _
  · rw [show (runModel stat testf quiet verbose cwd found).seen =
      (runGo stat testf quiet verbose cwd initRunSt found).seen from rfl]
    exact hperm.length_eq
  · have hlen : (runGo stat testf quiet verbose cwd initRunSt found).seen.length =
        found.dedup.length := hperm.length_eq
    unfold runModel
    cases verbose <;> simp [hlen]

/-- Witness for C10: a concrete duplicated path is processed once. -/
theorem claim_C10_witness :
    runModel (fun _ => 0) (fun _ => ([], [], [])) false false "" ["x.t", "x.t"] =
      runModel (fun _ => 0) (fun _ => ([], [], [])) false false "" ["x.t"] := by
  have h := (claim_C10 (fun _ => 0) (fun _ => ([], [], [])) false false ""
    [] ["x.t"] [] "x.t" (by simp)).2.1
  simpa using h

/- ------------------------------------------------------------------
Claim C9: findtests.
------------------------------------------------------------------ -/

theorem lexLeChars_total : ∀ xs ys : List Char,
    (lexLeChars xs ys || lexLeChars ys xs) = true := by
  intro xs
  induction xs with
  | nil => intro ys; simp [lexLeChars]
  | cons x xs2 ih =>
      intro ys
      cases ys with
      | nil => simp [lexLeChars]
      | cons y ys2 =>
          simp only [lexLeChars]
          rcases Nat.lt_trichotomy x.toNat y.toNat with hlt | heq | hgt
          · simp [hlt]
          · simp [heq, Nat.lt_irrefl, ih ys2]
          · simp [hgt, Nat.lt_asymm hgt]

theorem pyStrLe_total (a b : String) : pyStrLe a b = true ∨ pyStrLe b a = true := by
  have h := lexLeChars_total a.data b.data
  rcases Bool.or_eq_true_iff.mp h with h1 | h1
  · exact Or.inl h1
  · exact Or.inr h1

theorem pyInsert_head (x : String) (l : List String) :
    (pyInsert x l).head? = some x ∨ (pyInsert x l).head? = l.head? := by
  cases l with
  | nil => left; rfl
  | cons y ys =>
      unfold pyInsert
      by_cases h : pyStrLe x y
      · left; rw [if_pos h]; rfl
      · right; rw [if_neg h]; rfl

theorem chain'_pyInsert (x : String) : ∀ l : List String,
    List.Chain' (fun a b => pyStrLe a b = true) l →
    List.Chain' (fun a b => pyStrLe a b = true) (pyInsert x l) := by
  intro l
  induction l with
  | nil => intro _; simp [pyInsert]
  | cons y ys ih =>
      intro hch
      unfold pyInsert
      by_cases hxy : pyStrLe x y
      · rw [if_pos hxy]
        exact List.chain'_cons.mpr ⟨hxy, hch⟩
      · rw [if_neg hxy]
        have hyx : pyStrLe y x = true := by
          rcases pyStrLe_total x y with h | h
          · exact absurd h hxy
          · exact h
        apply List.chain'_cons'.mpr
        constructor
        · intro b hb
          rcases pyInsert_head x ys with hh | hh
          · rw [hh] at hb
            simp only [Option.mem_def, Option.some.injEq] at hb
            subst hb
            exact hyx
          · rw [hh] at hb
            exact (List.chain'_cons'.mp hch).1 b hb
        · exact ih (List.chain'_cons'.mp hch).2

/-- The per-directory file order produced by the model of `sorted()` is
sorted in the code-point lexicographic order. -/
theorem chain'_pySorted : ∀ l : List String,
    List.Chain' (fun a b => pyStrLe a b = true) (pySorted l) := by
  intro l
  induction l with
  | nil => exact List.chain'_nil
  | cons x xs ih => exact chain'_pyInsert x _ ih

theorem pyInsert_mem (a x : String) : ∀ l : List String,
    (a ∈ pyInsert x l ↔ a = x ∨ a ∈ l) := by
  intro l
  induction l with
  | nil => simp [pyInsert]
  | cons y ys ih =>
      unfold pyInsert
      by_cases h : pyStrLe x y
      · rw [if_pos h]
        simp [List.mem_cons]
      · rw [if_neg h]
        simp only [List.mem_cons, ih]
        tauto

theorem pySorted_mem (a : String) : ∀ l : List String,
    (a ∈ pySorted l ↔ a ∈ l) := by
  intro l
  induction l with
  | nil => simp [pySorted]
  | cons x xs ih => simp [pySorted, pyInsert_mem, ih, List.mem_cons]

/-- Only test-named files from the listing are yielded, each rendered as
the normalized join with the directory. -/
theorem dirContribution_mem (root : String) (files : List String) :
    ∀ p ∈ dirContribution root files,
      ∃ f, istest f = true ∧ f ∈ files ∧ p = pyNormpath (pyJoin root f) := by
  intro p hp
  unfold dirContribution at hp
  by_cases hdot : pyStartsWith (pyBasename root) "."
  · rw [if_pos hdot] at hp
    simp at hp
  · rw [if_neg hdot] at hp
    obtain ⟨f, hf, hpf⟩ := List.mem_map.mp hp
    have hft := List.of_mem_filter hf
    have hfm : f ∈ pySorted files := List.mem_of_mem_filter hf
    exact ⟨f, hft, (pySorted_mem f files).mp hfm, hpf.symm⟩

/-- The example tree `d/.h/s/` containing `a.t`: `os.walk` enters the
dot-named directory (cram never prunes `dirs`), and the file deep
inside it is yielded. -/
theorem claim_C9_counterexample :
    findtests [("d", some (FSList.cons
      (FSEntry.dir ".h" (FSList.cons
        (FSEntry.dir "s" (FSList.cons (FSEntry.file "a.t") FSList.nil))
        FSList.nil))
      FSList.nil))] = ["d/.h/s/a.t"] ∧
    pyStartsWith ".h" "." = true ∧
    pyStartsWith (pyBasename "d/.h/s") "." = false :=
  ⟨by decide, by decide, by decide⟩

/-- Claim C9 (amended): `findtests` yields, per walked directory, the
`istest`-named files in sorted (code-point lexicographic) order; a
directory whose own basename starts with a dot contributes nothing, but
the walk still recurses into dot-named directories, so test files in
their non-dot subdirectories are yielded (see the counterexample). -/
theorem claim_C9_amended :
    (∀ (root : String) (files : List String),
      pyStartsWith (pyBasename root) "." = true →
      dirContribution root files = []) ∧
    (∀ files : List String,
      List.Chain' (fun a b => pyStrLe a b = true) (pySorted files)) ∧
    (∀ (root : String) (files : List String), ∀ p ∈ dirContribution root files,
      ∃ f, istest f = true ∧ f ∈ files ∧ p = pyNormpath (pyJoin root f)) ∧
    pyWalk "d" (FSList.cons
      (FSEntry.dir ".h" (FSList.cons
        (FSEntry.dir "s" (FSList.cons (FSEntry.file "b.t") FSList.nil))
        FSList.nil))
      FSList.nil) =
      [("d", [".h"], []), ("d/.h", ["s"], []), ("d/.h/s", [], ["b.t"])] := by
  refine ⟨?_, chain'_pySorted, dirContribution_mem, by decide⟩
  intro root files hdot
  unfold dirContribution
  rw [if_pos hdot]

/-- Witness for C9: the dot-basename rule and the membership rule at
concrete inputs. -/
theorem claim_C9_witness :
    dirContribution "d/.h" ["x.t"] = [] ∧
    (∃ f, istest f = true ∧ f ∈ ["b.t", "a.t"] ∧
      "d/a.t" = pyNormpath (pyJoin "d" f)) := by
  constructor
  · exact claim_C9_amended.1 "d/.h" ["x.t"] (by decide)
  · exact claim_C9_amended.2.2.1 "d" ["b.t", "a.t"] "d/a.t" (by decide)

/- ------------------------------------------------------------------
Concrete evaluations anchoring the embedding against the source's
docstrings and observable behaviour.
------------------------------------------------------------------ -/

example : pyMatch "foo" "foobar\n" = true := by decide
example : pyMatch "foo\n" "foobar\n" = false := by decide
example : pyMatch "***" "anything" = false := by decide
example : pyMatch "fo.*r" "foobar" = true := by decide
example : pyMatch "fo.b+a?r" "fobbbr" = true := by decide
example : lineMatches "foo (re)\n" "foobar\n" = false := by decide
example : lineMatches "foo (re)\n" "foo\n" = true := by decide
example : lineMatches "fo. (re)\n" "foo\n" = true := by decide
example : lineMatches "fo* (glob)\n" "foooo\n" = true := by decide
example : lineMatches "a\\ (glob)\n" "a\\\n" = true := by decide
example : pyGlobE "a" "ab" = some true := by decide
example : pyGlobE "a\\" "a" = none := by decide
example : pyGlobE "\\* \\\\ \\? fo?b*" "* \\ ? foobar" = some true := by decide
example : pySplitWS "CRAM1 3 1\n" = ["CRAM1", "3", "1"] := by decide
example : pyInt "17" = some 17 := by decide

example :
    parseFile ["  $ cmd\n", "  err\n", "  [1]\n"] =
      ⟨[(-1, ["  $ cmd\n"])], ["  $ cmd\n", "  err\n", "  [1]\n"], 0, -1⟩ := by
  decide

example :
    reconstruct "CRAM1" [(-1, ["  $ cmd\n"])]
      ["\n", "CRAM1 0 0\n", "err\n", "\n", "CRAM1 3 1\n"] =
      some ["  $ cmd\n", "  err\n", "  [1]\n"] := by
  decide

example :
    reconstruct "CRAM1" [(-1, ["  $ cmd\n"])]
      ["\n", "CRAM1 0 0\n", "hi\n", "\n", "CRAM1 2 7\n"] =
      some ["  $ cmd\n", "  hi\n", "  [7]\n"] := by
  decide

example :
    find_longest_match (fun _ _ => (0, 0, 0)) ["fo. (re)\n", "x\n"] ["foo\n", "y\n"]
      0 2 0 2 = (["fo. (re)\n", "x\n"], (0, 0, 0)) := by
  decide

example :
    unified_diff ["a\n"] ["b\n"] "f" "g" "" "" "\n"
      [[⟨"replace", 0, 1, 0, 1⟩]] =
      ["--- f\t\n", "+++ g\t\n", "@@ -1,1 +1,1 @@\n", "-a\n", "+b\n"] := by
  decide

example :
    findtests [("d", some (FSList.cons
      (FSEntry.dir ".h" (FSList.cons
        (FSEntry.dir "s" (FSList.cons (FSEntry.file "a.t") FSList.nil))
        FSList.nil))
      FSList.nil))] = ["d/.h/s/a.t"] := by decide

example :
    findtests [("d", some (FSList.cons
      (FSEntry.dir ".h" (FSList.cons (FSEntry.file "x.t") FSList.nil))
      (FSList.cons (FSEntry.file "b.t")
      (FSList.cons (FSEntry.file "a.t")
      (FSList.cons (FSEntry.file ".hidden.t")
      (FSList.cons (FSEntry.file "c.txt") FSList.nil))))))] =
      ["d/a.t", "d/b.t"] := by decide

example :
    (runModel (fun _ => 0) (fun _ => ([], [], [])) false false "" ["x.t", "x.t"]).out =
      ["s", "\n", "# Ran 1 tests, 1 skipped, 0 failed.\n"] := by decide

example :
    (runModel (fun _ => 5) (fun _ => ([], [], ["d1"])) false false "" ["x.t"]).out =
      ["!", "\n", "d1", "\n", "# Ran 1 tests, 0 skipped, 1 failed.\n"] := by decide
